import Mathlib

/-
Verification development for a dining-philosophers simulation written in C.
The concurrent routines are shallowly embedded as trace generators: each C
function is translated to a Lean function returning the list of lock,
unlock, output and wait events it performs, with the shared termination
flag (`end_flag`) and the monitor bookkeeping threaded explicitly.  Machine
integers are modelled as `Int`; argument parsing is modelled with `Except`.
-/

/-- The mutexes of the program: one `fork_padlock` per utensil index plus the
three cross-cutting locks `print_padlock`, `eat_padlock` and `end_padlock`. -/
inductive LockId where
  | fork (i : Nat)
  | printL
  | eatL
  | endL
deriving DecidableEq, Repr

/-- Observable events of a thread: mutex operations, the timestamped log line
(`printf("%lld %d %s\n", ...)` carrying the action string), the completion
notice (`printf("%s\n", END_MSG)`), timed waits (`advance_time`), and the two
meal-bookkeeping writes done under `eat_padlock`. -/
inductive Ev where
  | lock (l : LockId)
  | unlock (l : LockId)
  | output (action : String)
  | outputEnd
  | wait (ms : Int)
  | incMeal
  | setLastMeal
deriving DecidableEq, Repr

/-- Status string `TAKE` from philo.h. -/
def TAKE : String := "has taken a fork"

/-- Status string `EAT` from philo.h. -/
def EAT : String := "is eating"

/-- Status string `SLEEP` from philo.h. -/
def SLEEP : String := "is sleeping"

/-- Status string `THINK` from philo.h. -/
def THINK : String := "is thinking"

/-- Status string `DIE` from philo.h. -/
def DIE : String := "died"

/-- Status string `END` from philo.h (the quota-completion marker). -/
def END : String := "e"

/-- Completion notice `END_MSG` from philo.h. -/
def END_MSG : String := "All philosophers ate enough!"

/-- The `t_philo` record (thread handle and back-pointer omitted). -/
structure Philo where
  id : Nat
  meal_count : Int
  left_fork : Nat
  right_fork : Nat
  last_meal : Int
deriving DecidableEq, Repr

/-- The `t_table` record (pointers and mutex storage omitted; the mutexes are
represented by `LockId`, the philosopher array by `philos`). -/
structure Table where
  philosopher_count : Int
  time_to_die : Int
  time_to_eat : Int
  time_to_sleep : Int
  start_time : Int
  must_eat_count : Int
  philos : List Philo
deriving Repr

/-- Model of `is_dinner_over(philo, end)`: locks `end_padlock`, sets `end_flag` when
`end` is true, and reports whether the flag is (now) set.  Returns the trace,
the updated flag, and the boolean result. -/
def is_dinner_over (endFlag : Bool) (e : Bool) : List Ev × Bool × Bool :=
  ([Ev.lock .endL, Ev.unlock .endL], endFlag || e, e || endFlag)

/-- Model of `print_action(philo, action)`: takes `print_padlock`, checks the flag via
`is_dinner_over(philo, false)` (which locks and releases `end_padlock`), emits
the timestamped line only when the flag is unset, releases `print_padlock`,
and finally — outside the lock — emits `END_MSG` whenever `action[0] == 'e'`.
`endFlag` is the value of `end_flag` at the moment of the inner check. -/
def print_action (endFlag : Bool) (action : String) : List Ev :=
  [Ev.lock .printL, Ev.lock .endL, Ev.unlock .endL]
    ++ (if endFlag then [] else [Ev.output action])
    ++ [Ev.unlock .printL]
    ++ (if action.data.head? = some 'e' then [Ev.outputEnd] else [])

/-- Model of `dinner_time(philo)`: the eating phase.  Even ids lock left then right,
odd ids lock right then left; then two `TAKE` lines and an `EAT` line are
printed, the eating wait elapses, the meal bookkeeping is updated under
`eat_padlock`, and both forks are unlocked (right first, then left). -/
def dinner_time (t : Table) (p : Philo) (endFlag : Bool) : List Ev :=
  (if p.id % 2 = 0 then
    [Ev.lock (.fork p.left_fork), Ev.lock (.fork p.right_fork)]
   else
    [Ev.lock (.fork p.right_fork), Ev.lock (.fork p.left_fork)])
    ++ print_action endFlag TAKE
    ++ print_action endFlag TAKE
    ++ print_action endFlag EAT
    ++ [Ev.wait t.time_to_eat]
    ++ [Ev.lock .eatL, Ev.incMeal, Ev.setLastMeal, Ev.unlock .eatL]
    ++ [Ev.unlock (.fork p.right_fork), Ev.unlock (.fork p.left_fork)]

/-- Model of `lone_philosopher(table)`: prints one `TAKE` line, waits `time_to_die`,
prints `DIE`, and sets the termination flag via `is_dinner_over(.., true)`.
Returns the trace and the updated flag. -/
def lone_philosopher (t : Table) (endFlag : Bool) : List Ev × Bool :=
  ((print_action endFlag TAKE
      ++ [Ev.wait t.time_to_die]
      ++ print_action endFlag DIE
      ++ (is_dinner_over endFlag true).1),
   (is_dinner_over endFlag true).2.1)

/-- One iteration of the `while (true)` loop body of `dinner_routine`:
the single-philosopher branch, the termination check, otherwise
think → eat (`dinner_time`) → sleep, plus the odd-count rebalancing wait.
Returns the trace, the updated flag, and whether the routine returns. -/
def dinner_routine_iter (t : Table) (p : Philo) (endFlag : Bool) :
    List Ev × Bool × Bool :=
  if t.philosopher_count = 1 then
    ((lone_philosopher t endFlag).1, (lone_philosopher t endFlag).2, true)
  else if endFlag then
    ([Ev.lock .endL, Ev.unlock .endL], endFlag, true)
  else
    ([Ev.lock .endL, Ev.unlock .endL]
       ++ print_action endFlag THINK
       ++ dinner_time t p endFlag
       ++ print_action endFlag SLEEP
       ++ [Ev.wait t.time_to_sleep]
       ++ (if t.philosopher_count % 2 ≠ 0 then [Ev.wait t.time_to_eat] else []),
     endFlag, false)

/-- Entry of `dinner_routine`: the even-id initial stagger of half
`time_to_eat`, followed by the first loop iteration. -/
def dinner_routine_start (t : Table) (p : Philo) (endFlag : Bool) :
    List Ev × Bool × Bool :=
  ((if p.id % 2 = 0 then [Ev.wait (t.time_to_eat / 2)] else [])
     ++ (dinner_routine_iter t p endFlag).1,
   (dinner_routine_iter t p endFlag).2)

/-- Model of `welcome_philosophers`: philosopher `i` (0-based) gets id `i+1`, left fork
`i`, right fork `(i+1) mod n`, zero meals, and `last_meal = start_time`. -/
def welcome_philosophers (n : Nat) (start_time : Int) : List Philo :=
  (List.range n).map fun i =>
    { id := i + 1, meal_count := 0, left_fork := i,
      right_fork := (i + 1) % n, last_meal := start_time }

/-- Index of a fork-acquisition event, if any. -/
def forkLockIdx : Ev → Option Nat
  | .lock (.fork i) => some i
  | _ => none

/-- Index of a fork-release event, if any. -/
def forkUnlockIdx : Ev → Option Nat
  | .unlock (.fork i) => some i
  | _ => none

/-- The sequence of fork indices acquired along a trace. -/
def forkLocksOf (tr : List Ev) : List Nat := tr.filterMap forkLockIdx

/-- The sequence of fork indices released along a trace. -/
def forkUnlocksOf (tr : List Ev) : List Nat := tr.filterMap forkUnlockIdx

/-- The sequence of timestamped log lines (their action strings) of a trace. -/
def outputsOf (tr : List Ev) : List String :=
  tr.filterMap fun e => match e with | .output s => some s | _ => none

/-- Whether an event is the completion-notice print. -/
def isEndNotice : Ev → Bool
  | .outputEnd => true
  | _ => false

/-- Number of completion notices emitted along a trace. -/
def countEndNotice (tr : List Ev) : Nat := (tr.filter isEndNotice).length

/-- Multiset of locks held after a prefix of events. -/
def heldAfter (tr : List Ev) : List LockId :=
  tr.foldl (fun h e =>
    match e with
    | .lock l => l :: h
    | .unlock l => h.erase l
    | _ => h) []

/-- Acquisition rank of each mutex: utensil locks lowest, then the
meal-bookkeeping lock, then the output lock, then the flag lock. -/
def lockRank : LockId → Nat
  | .fork _ => 0
  | .eatL => 1
  | .printL => 2
  | .endL => 3

/-- One step of the lock-hierarchy check.  `held` is the stack of
cross-cutting locks currently held (utensil locks are not stacked).  A
utensil lock may only be taken when no cross-cutting lock is held; a
cross-cutting lock only when every held lock has strictly smaller rank.
`none` signals a hierarchy violation. -/
def crossStep (held : List LockId) (e : Ev) : Option (List LockId) :=
  match e with
  | .lock (.fork _) => if held.isEmpty then some held else none
  | .lock l =>
      if held.all (fun d => lockRank d < lockRank l) then some (l :: held)
      else none
  | .unlock (.fork _) => some held
  | .unlock l => some (held.erase l)
  | _ => some held

/-- Run the lock-hierarchy check over a trace. -/
def crossRun (held : List LockId) : List Ev → Option (List LockId)
  | [] => some held
  | e :: rest =>
    match crossStep held e with
    | none => none
    | some h => crossRun h rest

/-- Result of `is_someone_dead_or_full`: its event trace, the updated
`end_flag`, the updated `is_full` counter, and the returned boolean. -/
structure MonOut where
  trace : List Ev
  endFlag : Bool
  is_full : Int
  result : Bool
deriving Repr

/-- Model of `is_someone_dead_or_full(philo)`: under `eat_padlock`, if the actor's
starvation deadline has passed, print `DIE` (with the flag as it currently
stands) and then set the flag; else if a quota is configured and reached,
increment `is_full` and, when it reaches `philosopher_count`, set the flag
first and then call `print_action` with the `END` marker. -/
def is_someone_dead_or_full (t : Table) (p : Philo) (now : Int)
    (endFlag : Bool) (isFull : Int) : MonOut :=
  if t.time_to_die ≤ now - p.last_meal then
    { trace := [Ev.lock .eatL] ++ print_action endFlag DIE
        ++ (is_dinner_over endFlag true).1 ++ [Ev.unlock .eatL],
      endFlag := true, is_full := isFull, result := true }
  else if 0 < t.must_eat_count ∧ t.must_eat_count ≤ p.meal_count then
    if t.philosopher_count ≤ isFull + 1 then
      { trace := [Ev.lock .eatL] ++ (is_dinner_over endFlag true).1
          ++ print_action true END ++ [Ev.unlock .eatL],
        endFlag := true, is_full := isFull + 1, result := true }
    else
      { trace := [Ev.lock .eatL, Ev.unlock .eatL],
        endFlag := endFlag, is_full := isFull + 1, result := false }
  else
    { trace := [Ev.lock .eatL, Ev.unlock .eatL],
      endFlag := endFlag, is_full := isFull, result := false }

/-- Result of one monitor pass: trace, flag, `is_full`, `continue_flag`. -/
structure PassOut where
  trace : List Ev
  endFlag : Bool
  is_full : Int
  continue_flag : Bool
deriving Repr

/-- The inner `while (++i < philosopher_count)` loop of `dinner_monitor`:
scans the actors in order; once `continue_flag` is cleared (short-circuit of
`continue_flag && is_someone_dead_or_full(...)`), later actors are skipped. -/
def dinner_monitor_pass_go (t : Table) (now : Int) :
    List Philo → PassOut → PassOut
  | [], st => st
  | p :: rest, st =>
    if st.continue_flag then
      let r := is_someone_dead_or_full t p now st.endFlag st.is_full
      dinner_monitor_pass_go t now rest
        { trace := st.trace ++ r.trace, endFlag := r.endFlag,
          is_full := r.is_full,
          continue_flag := if r.result then false else st.continue_flag }
    else dinner_monitor_pass_go t now rest st

/-- One pass of `dinner_monitor`: `is_full` is reset to `0` at the start of
the pass (the `table->is_full = 0;` line), then every actor is scanned. -/
def dinner_monitor_pass (t : Table) (now : Int) (endFlag : Bool) : PassOut :=
  dinner_monitor_pass_go t now t.philos
    { trace := [], endFlag := endFlag, is_full := 0, continue_flag := true }

/-- Whether an actor has reached the configured quota. -/
def satisfiedB (t : Table) (p : Philo) : Bool := t.must_eat_count ≤ p.meal_count

/-- Number of quota-satisfied actors in a list. -/
def satCount (t : Table) (l : List Philo) : Nat := l.countP (satisfiedB t)

/-- Validation failure modes of the argument checker (each one is an
`ft_putstr_fd` message to fd 2 followed by `exit(EXIT_FAILURE)`). -/
inductive ValErr where
  | usage
  | syntaxErr
  | overflow
  | rangePhilo
  | rangeTime
  | rangeMeal
deriving DecidableEq, Repr

/-- Model of `ft_check_overflow(num, digit)`: would `num * 10 + (digit - '0')` exceed
`INT_MAX`?  (`cutoff = INT_MAX / 10`, `INT_MAX % 10 = 7`.) -/
def ft_check_overflow (num : Int) (digit : Char) : Bool :=
  let cutoff : Int := 2147483647 / 10
  num > cutoff || (num == cutoff && ((digit.toNat : Int) - 48 > 2147483647 % 10))

/-- The accumulator loop of `ft_atoi`. -/
def ft_atoi_go (num : Int) : List Char → Int
  | [] => num
  | c :: rest =>
    if ft_check_overflow num c then -1
    else ft_atoi_go (num * 10 + ((c.toNat : Int) - 48)) rest

/-- Model of `ft_atoi(str)`: converts the string, returning `-1` the moment adding the
next digit would overflow `INT_MAX`. -/
def ft_atoi (s : String) : Int := ft_atoi_go 0 s.data

/-- Reference value of a digit string (no overflow cut-off); used to compare
`ft_atoi` with the exact denoted value. -/
def digitsVal (l : List Char) : Int :=
  l.foldl (fun acc c => acc * 10 + ((c.toNat : Int) - 48)) 0

/-- The character loop of `check_syntax`: rejects the first character outside
`'0'..'9'` (codes 48..57, compared numerically as in C). -/
def check_syntax_go : List Char → Except ValErr Unit
  | [] => .ok ()
  | c :: rest =>
    if c.toNat < 48 ∨ 57 < c.toNat then .error .syntaxErr
    else check_syntax_go rest

/-- Model of `check_syntax(str)`. -/
def check_syntax (s : String) : Except ValErr Unit := check_syntax_go s.data

/-- Model of `check_value(value, i)`: overflow first, then the positional range checks
(`i = 1`: 1..200; `i = 5`: > 0; `1 < i < 5`: ≥ 1), in source order. -/
def check_value (value : Int) (i : Nat) : Except ValErr Unit :=
  if value = -1 then .error .overflow
  else if i = 1 ∧ (value ≤ 0 ∨ value > 200) then .error .rangePhilo
  else if i = 5 ∧ value ≤ 0 then .error .rangeMeal
  else if 1 < i ∧ i < 5 ∧ value < 1 then .error .rangeTime
  else .ok ()

/-- The loop of `validate_arguments`: syntax check, conversion, value check
for each argument, `i` counting from 1. -/
def validate_arguments_go : List String → Nat → Except ValErr Unit
  | [], _ => .ok ()
  | a :: rest, i =>
    match check_syntax a with
    | .error e => .error e
    | .ok _ =>
      match check_value (ft_atoi a) i with
      | .error e => .error e
      | .ok _ => validate_arguments_go rest (i + 1)

/-- Model of `validate_argument_count(argc)`: argc must be 5 or 6. -/
def validate_argument_count (argc : Nat) : Except ValErr Unit :=
  if argc < 5 ∨ argc > 6 then .error .usage else .ok ()

/-- Model of `receive_guests(argc, argv)`; `args` is `argv` without the program name,
so `argc = args.length + 1`. -/
def receive_guests (args : List String) : Except ValErr Unit :=
  match validate_argument_count (args.length + 1) with
  | .error e => .error e
  | .ok _ => validate_arguments_go args 1

/-- Model of `set_table`: fills the configuration from the arguments; the optional
meal quota defaults to `-1` when absent. -/
def set_table (args : List String) : Table :=
  { philosopher_count := ft_atoi (args.getD 0 ""),
    time_to_die := ft_atoi (args.getD 1 ""),
    time_to_eat := ft_atoi (args.getD 2 ""),
    time_to_sleep := ft_atoi (args.getD 3 ""),
    start_time := 0,
    must_eat_count := if args.length = 5 then ft_atoi (args.getD 4 "") else -1,
    philos := [] }

/-- The `main` pipeline up to simulation-state construction: validation runs
first (`receive_guests`), and only on success are the table and the
philosopher array built. -/
def philo_main (args : List String) (now : Int) : Except ValErr Table :=
  match receive_guests args with
  | .error e => .error e
  | .ok _ =>
    let t := set_table args
    .ok { t with start_time := now,
                 philos := welcome_philosophers t.philosopher_count.toNat now }

/-- Mutex-destruction events of the `set_rules` rollback paths. -/
inductive SetupEv where
  | destroyFork (i : Nat)
  | destroyPrint
  | destroyEat
  | destroyEnd
deriving DecidableEq, Repr

/-- Model of `unset_previous_forks_rules(table, count)`: destroys fork mutexes
`count`, `count-1`, …, `0`; does nothing for a negative `count`. -/
def unset_previous_forks_rules (count : Int) : List SetupEv :=
  if count < 0 then []
  else SetupEv.destroyFork count.toNat :: unset_previous_forks_rules (count - 1)
termination_by (count + 1).toNat
decreasing_by
  simp_wf
  omega

/-- The fork-initialization loop of `set_forks_rules`; `fail i` tells whether
`pthread_mutex_init` fails on fork `i`.  On the first failure the rollback
destroys forks `i-1 … 0` and then the three cross-cutting locks, and the
process exits with `EXIT_FAILURE` (the `error` case). -/
def set_forks_rules_go (n : Nat) (fail : Nat → Bool) (i : Nat) :
    Except (List SetupEv) Unit :=
  if i < n then
    if fail i then
      .error (unset_previous_forks_rules ((i : Int) - 1)
        ++ [SetupEv.destroyPrint, SetupEv.destroyEat, SetupEv.destroyEnd])
    else set_forks_rules_go n fail (i + 1)
  else .ok ()
termination_by n - i
decreasing_by
  simp_wf
  omega

/-- Model of `set_forks_rules(table)` for `philosopher_count = n`. -/
def set_forks_rules (n : Nat) (fail : Nat → Bool) : Except (List SetupEv) Unit :=
  set_forks_rules_go n fail 0

/-- Sample two-actor configuration. -/
def tableA : Table :=
  { philosopher_count := 2, time_to_die := 410, time_to_eat := 200,
    time_to_sleep := 100, start_time := 0, must_eat_count := -1,
    philos := welcome_philosophers 2 0 }

/-- Sample single-actor configuration. -/
def tableLone : Table :=
  { philosopher_count := 1, time_to_die := 410, time_to_eat := 200,
    time_to_sleep := 100, start_time := 0, must_eat_count := -1,
    philos := welcome_philosophers 1 0 }

/-- Sample quota configuration with one actor that has reached the quota. -/
def tableQuota : Table :=
  { philosopher_count := 1, time_to_die := 410, time_to_eat := 200,
    time_to_sleep := 100, start_time := 0, must_eat_count := 3,
    philos := [{ id := 1, meal_count := 3, left_fork := 0, right_fork := 0,
                 last_meal := 0 }] }

/-- Sample quota configuration with two actors that have reached the quota. -/
def tableQuota2 : Table :=
  { philosopher_count := 2, time_to_die := 410, time_to_eat := 200,
    time_to_sleep := 100, start_time := 0, must_eat_count := 3,
    philos := [{ id := 1, meal_count := 3, left_fork := 0, right_fork := 1,
                 last_meal := 0 },
               { id := 2, meal_count := 4, left_fork := 1, right_fork := 0,
                 last_meal := 0 }] }

/-- The odd-id actor of `tableA`. -/
def philoOdd : Philo :=
  { id := 1, meal_count := 0, left_fork := 0, right_fork := 1, last_meal := 0 }

/-- The even-id actor of `tableA`. -/
def philoEven : Philo :=
  { id := 2, meal_count := 0, left_fork := 1, right_fork := 0, last_meal := 0 }

/-- The single actor of `tableLone` (as built by `welcome_philosophers`). -/
def philoLone : Philo :=
  { id := 1, meal_count := 0, left_fork := 0, right_fork := 0, last_meal := 0 }

/-- The quota-satisfied actor of `tableQuota`. -/
def philoFull : Philo :=
  { id := 1, meal_count := 3, left_fork := 0, right_fork := 0, last_meal := 0 }

/-- Whether an event is the release of the output lock. -/
def isUnlockPrint : Ev → Bool
  | .unlock .printL => true
  | _ => false

/-- No fork is acquired inside `print_action`. -/
theorem forkLocksOf_print_action (f : Bool) (a : String) :
    forkLocksOf (print_action f a) = [] := by
  unfold print_action forkLocksOf
  cases f <;> split <;> simp [forkLockIdx]

/-- No fork is released inside `print_action`. -/
theorem forkUnlocksOf_print_action (f : Bool) (a : String) :
    forkUnlocksOf (print_action f a) = [] := by
  unfold print_action forkUnlocksOf
  cases f <;> split <;> simp [forkUnlockIdx]

/-- Element form of `forkLocksOf_print_action`. -/
theorem forkLockIdx_print_action (f : Bool) (a : String) :
    ∀ e ∈ print_action f a, forkLockIdx e = none := by
  have h := forkLocksOf_print_action f a
  rw [forkLocksOf, List.filterMap_eq_nil_iff] at h
  exact h

/-- Element form of `forkUnlocksOf_print_action`. -/
theorem forkUnlockIdx_print_action (f : Bool) (a : String) :
    ∀ e ∈ print_action f a, forkUnlockIdx e = none := by
  have h := forkUnlocksOf_print_action f a
  rw [forkUnlocksOf, List.filterMap_eq_nil_iff] at h
  exact h

/-- The acquisition order of the eating phase, by parity. -/
theorem forkLocksOf_dinner_time (t : Table) (p : Philo) (f : Bool) :
    forkLocksOf (dinner_time t p f) =
      if p.id % 2 = 0 then [p.left_fork, p.right_fork]
      else [p.right_fork, p.left_fork] := by
  unfold dinner_time forkLocksOf
  rcases Nat.decEq (p.id % 2) 0 with h | h <;>
    simp [h, forkLockIdx] <;>
    exact ⟨forkLockIdx_print_action f TAKE, forkLockIdx_print_action f EAT⟩

/-- C1.  In every eating phase (`dinner_time`), the utensil locks are
acquired in the parity-determined order: an even-id actor locks its left fork
and then its right fork, an odd-id actor locks its right fork and then its
left fork. -/
theorem c1_parity_acquisition_order (t : Table) (p : Philo) (f : Bool) :
    forkLocksOf (dinner_time t p f) =
      if p.id % 2 = 0 then [p.left_fork, p.right_fork]
      else [p.right_fork, p.left_fork] :=
  forkLocksOf_dinner_time t p f

/-- C2 counterexample.  For the odd-id actor (id 1, forks 0 and 1) the
release order of `dinner_time` is not the mirror of the acquisition order:
both are right-then-left. -/
theorem c2_release_not_mirrored_for_odd :
    forkUnlocksOf (dinner_time tableA philoOdd false) ≠
      (forkLocksOf (dinner_time tableA philoOdd false)).reverse := by
  decide

/-- C2 amended.  Every actor releases its forks in the fixed order
right-then-left, regardless of parity; this mirrors the acquisition order
for even-id actors (which acquired left-then-right), while odd-id actors
release in the same order they acquired. -/
theorem c2_release_order_right_then_left (t : Table) (p : Philo) (f : Bool) :
    forkUnlocksOf (dinner_time t p f) = [p.right_fork, p.left_fork] ∧
    (p.id % 2 = 0 →
      forkUnlocksOf (dinner_time t p f) =
        (forkLocksOf (dinner_time t p f)).reverse) := by
  have hp : ∀ a, List.filterMap forkUnlockIdx (print_action f a) = [] :=
    fun a => forkUnlocksOf_print_action f a
  have hu : forkUnlocksOf (dinner_time t p f) = [p.right_fork, p.left_fork] := by
    unfold dinner_time forkUnlocksOf
    rcases Nat.decEq (p.id % 2) 0 with h | h <;>
      simp [h, forkUnlockIdx, hp]
  refine ⟨hu, fun h => ?_⟩
  rw [hu, forkLocksOf_dinner_time, if_pos h]
  rfl

/-- C2 witness.  Concrete even-id instance of the amended release-order
theorem. -/
theorem c2_release_order_witness :
    forkUnlocksOf (dinner_time tableA philoEven false) = [0, 1] ∧
    forkUnlocksOf (dinner_time tableA philoEven false) =
      (forkLocksOf (dinner_time tableA philoEven false)).reverse := by
  have h := c2_release_order_right_then_left tableA philoEven false
  exact ⟨h.1, h.2 (by decide)⟩

/-- C3 counterexample.  Four events into the even-id actor's eating phase
the thread holds both utensil locks, the output lock and the
termination-flag lock at once: `dinner_time` calls `print_action` while
holding both forks, and `print_action` calls `is_dinner_over` (which locks
`end_padlock`) while holding `print_padlock`. -/
theorem c3_cross_lock_overlap :
    LockId.printL ∈ heldAfter (List.take 4 (dinner_time tableA philoEven false)) ∧
    LockId.endL ∈ heldAfter (List.take 4 (dinner_time tableA philoEven false)) ∧
    LockId.fork 1 ∈ heldAfter (List.take 4 (dinner_time tableA philoEven false)) ∧
    LockId.fork 0 ∈ heldAfter (List.take 4 (dinner_time tableA philoEven false)) := by
  decide

/-- The hierarchy check passes `print_action` from an empty held set and from
under the meal-bookkeeping lock alone. -/
theorem crossRun_print_action (f : Bool) (a : String) :
    crossRun [] (print_action f a) = some [] ∧
    crossRun [LockId.eatL] (print_action f a) = some [LockId.eatL] := by
  by_cases he : a.data.head? = some 'e' <;> cases f <;>
    simp only [print_action, he, if_pos, if_neg, if_true, if_false,
      Bool.false_eq_true, Bool.true_eq_false, ite_true, ite_false] <;>
    exact ⟨rfl, rfl⟩

/-- The hierarchy check passes the whole eating phase. -/
theorem crossRun_dinner_time (t : Table) (p : Philo) (f : Bool) :
    crossRun [] (dinner_time t p f) = some [] := by
  unfold dinner_time
  by_cases he : p.id % 2 = 0 <;> cases f <;>
    simp only [he, ite_true, ite_false, if_pos, if_neg] <;>
    rfl

/-- The hierarchy check passes the lone-philosopher path. -/
theorem crossRun_lone_philosopher (t : Table) (f : Bool) :
    crossRun [] (lone_philosopher t f).1 = some [] := by
  unfold lone_philosopher
  cases f <;> rfl

/-- The hierarchy check passes every `is_dinner_over` call (this is also the
per-slice poll of `advance_time`). -/
theorem crossRun_is_dinner_over (f e : Bool) :
    crossRun [] (is_dinner_over f e).1 = some [] := rfl

/-- The hierarchy check passes every branch of the monitor's per-actor scan. -/
theorem crossRun_is_someone_dead_or_full (t : Table) (p : Philo) (now : Int)
    (f : Bool) (isFull : Int) :
    crossRun [] (is_someone_dead_or_full t p now f isFull).trace = some [] := by
  unfold is_someone_dead_or_full
  by_cases h1 : t.time_to_die ≤ now - p.last_meal <;>
    by_cases h2 : 0 < t.must_eat_count ∧ t.must_eat_count ≤ p.meal_count <;>
    by_cases h3 : t.philosopher_count ≤ isFull + 1 <;>
    cases f <;>
    simp only [h1, h2, h3, ite_true, ite_false, if_pos, if_neg] <;>
    rfl

/-- The hierarchy check passes a full iteration of the actor loop. -/
theorem crossRun_dinner_routine_start (t : Table) (p : Philo) (f : Bool) :
    crossRun [] (dinner_routine_start t p f).1 = some [] := by
  have hiter : crossRun [] (dinner_routine_iter t p f).1 = some [] := by
    unfold dinner_routine_iter
    by_cases h1 : t.philosopher_count = 1
    · rw [if_pos h1]
      exact crossRun_lone_philosopher t f
    · rw [if_neg h1]
      cases f
      · show crossRun [] ([Ev.lock .endL, Ev.unlock .endL]
            ++ print_action false THINK ++ dinner_time t p false
            ++ print_action false SLEEP ++ [Ev.wait t.time_to_sleep]
            ++ (if t.philosopher_count % 2 ≠ 0 then [Ev.wait t.time_to_eat]
                else [])) = some []
        unfold dinner_time
        by_cases h2 : p.id % 2 = 0 <;>
          [rw [if_pos h2]; rw [if_neg h2]] <;>
          by_cases h3 : t.philosopher_count % 2 = 0 <;>
          [rw [if_neg (fun hc => hc h3)]; rw [if_pos h3];
           rw [if_neg (fun hc => hc h3)]; rw [if_pos h3]] <;>
          rfl
      · rfl
  rcases hx : dinner_routine_iter t p f with ⟨tr, fl, rt⟩
  rw [hx] at hiter
  unfold dinner_routine_start
  rw [hx]
  by_cases h2 : p.id % 2 = 0
  · rw [if_pos h2]
    show crossRun [] ([Ev.wait (t.time_to_eat / 2)] ++ tr) = some []
    exact hiter
  · rw [if_neg h2]
    show crossRun [] ([] ++ tr) = some []
    rw [List.nil_append]
    exact hiter

/-- C3 amended.  Lock acquisition follows a fixed acyclic hierarchy
(utensil locks, then the meal-bookkeeping lock, then the output lock, then
the termination-flag lock): a utensil lock is only taken when no
cross-cutting lock is held, and each cross-cutting lock is only taken while
strictly lower-ranked locks are held.  In particular the flag lock's
critical sections acquire nothing.  The original disjointness claim fails —
the output and flag locks are taken while utensils are held, and the flag
lock while the output lock is held — but no cross-lock cyclic dependency
can arise. -/
theorem c3_lock_hierarchy (t : Table) (p : Philo) (f e : Bool) (now : Int)
    (isFull : Int) :
    crossRun [] (dinner_time t p f) = some [] ∧
    crossRun [] (lone_philosopher t f).1 = some [] ∧
    crossRun [] (is_dinner_over f e).1 = some [] ∧
    crossRun [] (is_someone_dead_or_full t p now f isFull).trace = some [] ∧
    crossRun [] (dinner_routine_start t p f).1 = some [] :=
  ⟨crossRun_dinner_time t p f, crossRun_lone_philosopher t f,
   crossRun_is_dinner_over f e, crossRun_is_someone_dead_or_full t p now f isFull,
   crossRun_dinner_routine_start t p f⟩

/-- Lemma: `outputsOf` distributes over concatenation. -/
theorem outputsOf_append (a b : List Ev) :
    outputsOf (a ++ b) = outputsOf a ++ outputsOf b := by
  simp [outputsOf, List.filterMap_append]

/-- Lemma: `countEndNotice` distributes over concatenation. -/
theorem countEndNotice_append (a b : List Ev) :
    countEndNotice (a ++ b) = countEndNotice a + countEndNotice b := by
  simp [countEndNotice, List.filter_append]

/-- The timestamped line of `print_action` appears exactly when the flag was
unset at the inner check. -/
theorem outputsOf_print_action (f : Bool) (a : String) :
    outputsOf (print_action f a) = if f then [] else [a] := by
  by_cases he : a.data.head? = some 'e' <;> cases f <;>
    simp [print_action, he, outputsOf]

/-- Lemma: `print_action` emits the completion notice exactly when the action string
starts with `'e'`, independently of the flag. -/
theorem countEndNotice_print_action (f : Bool) (a : String) :
    countEndNotice (print_action f a) =
      if a.data.head? = some 'e' then 1 else 0 := by
  by_cases he : a.data.head? = some 'e' <;> cases f <;>
    simp [print_action, he, countEndNotice, isEndNotice]

/-- C4 counterexample.  In the quota-completion branch the flag is set
*before* the `END` print call, so the timestamped line of the completion
marker is suppressed: the triggering scan emits the completion notice but no
timestamped output line at all. -/
theorem c4_completion_line_suppressed :
    (is_someone_dead_or_full tableQuota philoFull 10 false 0).result = true ∧
    (is_someone_dead_or_full tableQuota philoFull 10 false 0).endFlag = true ∧
    countEndNotice (is_someone_dead_or_full tableQuota philoFull 10 false 0).trace = 1 ∧
    outputsOf (is_someone_dead_or_full tableQuota philoFull 10 false 0).trace = [] := by
  decide

/-- C4 amended.  The death message is emitted (the `DIE` print happens
before the flag is set, so with the flag previously unset the line appears);
for quota completion the flag is set before the marker's print call, so the
timestamped completion-marker line is suppressed while the completion notice
itself is still emitted exactly once; and any `print_action` call issued when
the flag is already set emits no timestamped line. -/
theorem c4_trigger_output (t : Table) (p : Philo) (now : Int) (fl : Bool)
    (isFull : Int) (a : String) :
    (t.time_to_die ≤ now - p.last_meal →
      outputsOf (is_someone_dead_or_full t p now false isFull).trace = [DIE] ∧
      (is_someone_dead_or_full t p now false isFull).endFlag = true) ∧
    (¬ t.time_to_die ≤ now - p.last_meal →
      0 < t.must_eat_count → t.must_eat_count ≤ p.meal_count →
      t.philosopher_count ≤ isFull + 1 →
      outputsOf (is_someone_dead_or_full t p now fl isFull).trace = [] ∧
      countEndNotice (is_someone_dead_or_full t p now fl isFull).trace = 1 ∧
      (is_someone_dead_or_full t p now fl isFull).endFlag = true) ∧
    outputsOf (print_action true a) = [] := by
  refine ⟨fun hd => ?_, fun hnd hq hs hc => ?_, ?_⟩
  · rw [is_someone_dead_or_full, if_pos hd]
    exact ⟨rfl, rfl⟩
  · rw [is_someone_dead_or_full, if_neg hnd, if_pos ⟨hq, hs⟩, if_pos hc]
    exact ⟨rfl, rfl, rfl⟩
  · simp [outputsOf_print_action]

/-- C4 witness.  Concrete instances of both trigger branches: a dying
actor's message is printed, and a quota-completing scan prints the notice but
no timestamped line. -/
theorem c4_trigger_output_witness :
    (outputsOf (is_someone_dead_or_full tableA philoOdd 500 false 0).trace = [DIE] ∧
      (is_someone_dead_or_full tableA philoOdd 500 false 0).endFlag = true) ∧
    (outputsOf (is_someone_dead_or_full tableQuota philoFull 10 false 0).trace = [] ∧
      countEndNotice (is_someone_dead_or_full tableQuota philoFull 10 false 0).trace = 1 ∧
      (is_someone_dead_or_full tableQuota philoFull 10 false 0).endFlag = true) ∧
    outputsOf (print_action true THINK) = [] := by
  refine ⟨?_, ?_, ?_⟩
  · exact (c4_trigger_output tableA philoOdd 500 false 0 THINK).1 (by decide)
  · exact (c4_trigger_output tableQuota philoFull 10 false 0 THINK).2.1
      (by decide) (by decide) (by decide) (by decide)
  · exact (c4_trigger_output tableA philoOdd 500 false 0 THINK).2.2

/-- C5 counterexample.  The lone actor's routine logs the "has taken a
fork" event and then "died", but its trace contains no acquisition of the
single utensil lock at all: `lone_philosopher` only prints, it never locks
`fork_padlock[0]`. -/
theorem c5_lone_no_fork_lock :
    outputsOf (dinner_routine_start tableLone philoLone false).1 = [TAKE, DIE] ∧
    Ev.lock (LockId.fork 0) ∉ (dinner_routine_start tableLone philoLone false).1 ∧
    forkLocksOf (dinner_routine_start tableLone philoLone false).1 = [] := by
  decide

/-- C5 amended.  With `philosopher_count = 1` the lone actor (id 1,
left = right = fork 0) logs exactly one "has taken a fork" line — without
ever acquiring the utensil mutex: `lone_philosopher` only prints the take
event, it never locks `fork_padlock[0]` — then waits `time_to_die`, logs
"died", sets the termination flag, and its routine returns.  Its trace
contains no utensil-lock acquisition (`forkLocksOf` is empty), so it never
blocks on the one contended resource and the process exits 0 without
deadlocking.  (It still takes the output and termination-flag locks inside
`print_action` and `is_dinner_over`, like every other logging call.) -/
theorem c5_lone_behavior (t : Table) (s : Int) (p : Philo)
    (h1 : t.philosopher_count = 1) (hp : p ∈ welcome_philosophers 1 s) :
    p.left_fork = 0 ∧ p.right_fork = 0 ∧
    (dinner_routine_start t p false).2.2 = true ∧
    (dinner_routine_start t p false).2.1 = true ∧
    outputsOf (dinner_routine_start t p false).1 = [TAKE, DIE] ∧
    Ev.wait t.time_to_die ∈ (dinner_routine_start t p false).1 ∧
    forkLocksOf (dinner_routine_start t p false).1 = [] := by
  have hp' : (⟨1, 0, 0, 0, s⟩ : Philo) = p := by
    simpa [welcome_philosophers] using hp
  subst hp'
  refine ⟨rfl, rfl, ?_, ?_, ?_, ?_, ?_⟩ <;>
    simp only [dinner_routine_start, dinner_routine_iter, h1, ite_true,
      if_pos, if_true, eq_self_iff_true] <;>
    first
      | rfl
      | simp [lone_philosopher, List.mem_append, List.mem_cons]

/-- C5 witness.  The amended single-actor theorem at the concrete
one-actor table. -/
theorem c5_lone_behavior_witness :
    philoLone.left_fork = 0 ∧ philoLone.right_fork = 0 ∧
    (dinner_routine_start tableLone philoLone false).2.2 = true ∧
    (dinner_routine_start tableLone philoLone false).2.1 = true ∧
    outputsOf (dinner_routine_start tableLone philoLone false).1 = [TAKE, DIE] ∧
    Ev.wait tableLone.time_to_die ∈ (dinner_routine_start tableLone philoLone false).1 ∧
    forkLocksOf (dinner_routine_start tableLone philoLone false).1 = [] :=
  c5_lone_behavior tableLone 0 philoLone (by decide) (by decide)

/-- C9.  `print_action` decides the completion notice solely from the
first character of the action string: the notice is emitted iff the string
begins with `'e'`, always after the output lock is released; with the flag
already set the `END` call emits the notice but no timestamped line; and no
notice appears before the release of the output lock. -/
theorem c9_end_notice_first_char (f : Bool) (a : String) :
    (Ev.outputEnd ∈ print_action f a ↔ a.data.head? = some 'e') ∧
    Ev.unlock LockId.printL ∈ print_action f a ∧
    Ev.outputEnd ∉ (print_action f a).takeWhile (fun e => !(isUnlockPrint e)) ∧
    (outputsOf (print_action true END) = [] ∧
      Ev.outputEnd ∈ print_action true END) ∧
    (∀ s, s = TAKE ∨ s = EAT ∨ s = SLEEP ∨ s = THINK ∨ s = DIE →
      Ev.outputEnd ∉ print_action f s) := by
  refine ⟨?_, ?_, ?_, ⟨by decide, by decide⟩, ?_⟩
  · by_cases he : a.data.head? = some 'e' <;> cases f <;>
      simp [print_action, he]
  · by_cases he : a.data.head? = some 'e' <;> cases f <;>
      simp [print_action, he]
  · by_cases he : a.data.head? = some 'e' <;> cases f <;>
      simp [print_action, he, isUnlockPrint, List.takeWhile]
  · rintro s (rfl | rfl | rfl | rfl | rfl) <;> cases f <;> decide

/-- C9 witness.  At the `END` marker with the flag set the notice is
emitted, and a `TAKE` call never emits it. -/
theorem c9_end_notice_first_char_witness :
    Ev.outputEnd ∈ print_action true END ∧
    Ev.outputEnd ∉ print_action true TAKE := by
  refine ⟨(c9_end_notice_first_char true END).1.mpr (by decide), ?_⟩
  exact (c9_end_notice_first_char true TAKE).2.2.2.2 TAKE (Or.inl rfl)

/-- Once `continue_flag` is cleared, the rest of the scan is a no-op
(the short-circuit `continue_flag && is_someone_dead_or_full(...)`). -/
theorem dinner_monitor_pass_go_stopped (t : Table) (now : Int)
    (l : List Philo) (st : PassOut) (h : st.continue_flag = false) :
    dinner_monitor_pass_go t now l st = st := by
  induction l with
  | nil => rfl
  | cons p rest ih => rw [dinner_monitor_pass_go, if_neg (by simp [h]), ih]

/-- Computation of `satCount` over a cons cell. -/
theorem satCount_cons (t : Table) (p : Philo) (l : List Philo) :
    satCount t (p :: l) =
      satCount t l + (if t.must_eat_count ≤ p.meal_count then 1 else 0) := by
  simp [satCount, List.countP_cons, satisfiedB]

/-- If nobody is starving and the satisfied actors seen so far plus those in
the remaining list cannot reach `philosopher_count`, the scan completes the
pass without triggering: flag stays unset, `continue_flag` stays set,
`is_full` ends at the number of satisfied actors, and no notice is printed. -/
theorem pass_go_no_trigger (t : Table) (now : Int) :
    ∀ (l : List Philo) (tr : List Ev) (j : Int),
    0 < t.must_eat_count →
    (∀ p ∈ l, now - p.last_meal < t.time_to_die) →
    j + (satCount t l : Int) < t.philosopher_count →
    (dinner_monitor_pass_go t now l ⟨tr, false, j, true⟩).endFlag = false ∧
    (dinner_monitor_pass_go t now l ⟨tr, false, j, true⟩).continue_flag = true ∧
    (dinner_monitor_pass_go t now l ⟨tr, false, j, true⟩).is_full
      = j + (satCount t l : Int) ∧
    countEndNotice (dinner_monitor_pass_go t now l ⟨tr, false, j, true⟩).trace
      = countEndNotice tr := by
  intro l
  induction l with
  | nil =>
    intro tr j hq hnd hlt
    refine ⟨rfl, rfl, ?_, rfl⟩
    show (⟨tr, false, j, true⟩ : PassOut).is_full = j + (satCount t [] : Int)
    simp [satCount]
  | cons p rest ih =>
    intro tr j hq hnd hlt
    have hndp : ¬ t.time_to_die ≤ now - p.last_meal :=
      not_le.mpr (hnd p (List.mem_cons_self p rest))
    have hndr : ∀ q ∈ rest, now - q.last_meal < t.time_to_die :=
      fun q hqm => hnd q (List.mem_cons_of_mem p hqm)
    rw [satCount_cons] at hlt
    by_cases hsat : t.must_eat_count ≤ p.meal_count
    · have hcnt : ¬ t.philosopher_count ≤ j + 1 := by
        rw [if_pos hsat] at hlt
        have : (0 : Int) ≤ (satCount t rest : Int) := Int.ofNat_nonneg _
        push_cast at hlt ⊢
        omega
      rw [dinner_monitor_pass_go, if_pos rfl]
      rw [is_someone_dead_or_full, if_neg hndp, if_pos ⟨hq, hsat⟩, if_neg hcnt]
      dsimp only
      rw [if_neg Bool.false_ne_true]
      have hres := ih (tr ++ [Ev.lock .eatL, Ev.unlock .eatL]) (j + 1) hq hndr
        (by rw [if_pos hsat] at hlt; push_cast at hlt ⊢; omega)
      refine ⟨hres.1, hres.2.1, ?_, ?_⟩
      · rw [hres.2.2.1, satCount_cons, if_pos hsat]
        push_cast
        omega
      · rw [hres.2.2.2, countEndNotice_append]
        rfl
    · rw [dinner_monitor_pass_go, if_pos rfl]
      rw [is_someone_dead_or_full, if_neg hndp, if_neg (fun hc => hsat hc.2)]
      dsimp only
      rw [if_neg Bool.false_ne_true]
      have hres := ih (tr ++ [Ev.lock .eatL, Ev.unlock .eatL]) j hq hndr
        (by rw [if_neg hsat] at hlt; push_cast at hlt ⊢; omega)
      refine ⟨hres.1, hres.2.1, ?_, ?_⟩
      · rw [hres.2.2.1, satCount_cons, if_neg hsat]
        push_cast
        omega
      · rw [hres.2.2.2, countEndNotice_append]
        rfl

/-- If nobody is starving, a quota is configured, and the satisfied actors in
the rest of the list suffice to reach `philosopher_count`, the scan triggers
quota completion: the flag is set, `continue_flag` is cleared, and exactly
one completion notice is printed. -/
theorem pass_go_trigger (t : Table) (now : Int) :
    ∀ (l : List Philo) (tr : List Ev) (j : Int),
    0 < t.must_eat_count →
    (∀ p ∈ l, now - p.last_meal < t.time_to_die) →
    j < t.philosopher_count →
    t.philosopher_count ≤ j + (satCount t l : Int) →
    (dinner_monitor_pass_go t now l ⟨tr, false, j, true⟩).endFlag = true ∧
    (dinner_monitor_pass_go t now l ⟨tr, false, j, true⟩).continue_flag = false ∧
    countEndNotice (dinner_monitor_pass_go t now l ⟨tr, false, j, true⟩).trace
      = countEndNotice tr + 1 := by
  intro l
  induction l with
  | nil =>
    intro tr j hq hnd hjlt hge
    exfalso
    simp [satCount] at hge
    omega
  | cons p rest ih =>
    intro tr j hq hnd hjlt hge
    have hndp : ¬ t.time_to_die ≤ now - p.last_meal :=
      not_le.mpr (hnd p (List.mem_cons_self p rest))
    have hndr : ∀ q ∈ rest, now - q.last_meal < t.time_to_die :=
      fun q hqm => hnd q (List.mem_cons_of_mem p hqm)
    rw [satCount_cons] at hge
    by_cases hsat : t.must_eat_count ≤ p.meal_count
    · by_cases hcnt : t.philosopher_count ≤ j + 1
      · rw [dinner_monitor_pass_go, if_pos rfl]
        rw [is_someone_dead_or_full, if_neg hndp, if_pos ⟨hq, hsat⟩, if_pos hcnt]
        dsimp only
        rw [if_pos rfl]
        rw [dinner_monitor_pass_go_stopped t now rest _ rfl]
        refine ⟨rfl, rfl, ?_⟩
        show countEndNotice (tr ++ ([Ev.lock .eatL]
          ++ (is_dinner_over false true).1 ++ print_action true END
          ++ [Ev.unlock .eatL])) = countEndNotice tr + 1
        rw [countEndNotice_append]
        rfl
      · rw [dinner_monitor_pass_go, if_pos rfl]
        rw [is_someone_dead_or_full, if_neg hndp, if_pos ⟨hq, hsat⟩, if_neg hcnt]
        dsimp only
        rw [if_neg Bool.false_ne_true]
        have hres := ih (tr ++ [Ev.lock .eatL, Ev.unlock .eatL]) (j + 1) hq hndr
          (by omega)
          (by rw [if_pos hsat] at hge; push_cast at hge ⊢; omega)
        refine ⟨hres.1, hres.2.1, ?_⟩
        rw [hres.2.2, countEndNotice_append]
        rfl
    · rw [dinner_monitor_pass_go, if_pos rfl]
      rw [is_someone_dead_or_full, if_neg hndp, if_neg (fun hc => hsat hc.2)]
      dsimp only
      rw [if_neg Bool.false_ne_true]
      have hres := ih (tr ++ [Ev.lock .eatL, Ev.unlock .eatL]) j hq hndr hjlt
        (by rw [if_neg hsat] at hge; push_cast at hge ⊢; omega)
      refine ⟨hres.1, hres.2.1, ?_⟩
      rw [hres.2.2, countEndNotice_append]
      rfl

/-- C6.  With a quota `K > 0` configured and (in this pass) nobody past
its starvation deadline, the monitor pass — which always starts from a reset
satisfied-counter (`is_full := 0` in `dinner_monitor_pass`) — sets the
termination flag exactly when every one of the `philosopher_count` actors
has `meal_count ≥ K`; in that case it emits exactly one completion notice
and clears `continue_flag` (so the monitor loop stops and `main` returns
`EXIT_SUCCESS`), and otherwise it emits no notice and keeps polling. -/
theorem c6_quota_termination (t : Table) (now : Int)
    (hq : 0 < t.must_eat_count)
    (hn : (t.philos.length : Int) = t.philosopher_count)
    (hne : t.philos ≠ [])
    (hnd : ∀ p ∈ t.philos, now - p.last_meal < t.time_to_die) :
    ((dinner_monitor_pass t now false).endFlag = true ↔
      ∀ p ∈ t.philos, t.must_eat_count ≤ p.meal_count) ∧
    ((dinner_monitor_pass t now false).endFlag = true →
      countEndNotice (dinner_monitor_pass t now false).trace = 1 ∧
      (dinner_monitor_pass t now false).continue_flag = false) ∧
    ((dinner_monitor_pass t now false).endFlag = false →
      countEndNotice (dinner_monitor_pass t now false).trace = 0 ∧
      (dinner_monitor_pass t now false).continue_flag = true) := by
  have hlen : 0 < t.philos.length := List.length_pos.mpr hne
  by_cases hall : ∀ p ∈ t.philos, t.must_eat_count ≤ p.meal_count
  · have hsc : satCount t t.philos = t.philos.length := by
      unfold satCount
      refine List.countP_eq_length.mpr fun p hp => ?_
      simpa [satisfiedB] using hall p hp
    have h := pass_go_trigger t now t.philos [] 0 hq hnd (by omega)
      (by rw [hsc]; omega)
    unfold dinner_monitor_pass
    refine ⟨⟨fun _ => hall, fun _ => h.1⟩,
      fun _ => ⟨by rw [h.2.2]; rfl, h.2.1⟩, fun hf => ?_⟩
    rw [h.1] at hf
    exact absurd hf (by decide)
  · have hsc : satCount t t.philos < t.philos.length := by
      unfold satCount
      refine lt_of_le_of_ne (List.countP_le_length _) fun he => ?_
      exact hall fun p hp => by
        simpa [satisfiedB] using List.countP_eq_length.mp he p hp
    have h := pass_go_no_trigger t now t.philos [] 0 hq hnd (by omega)
    unfold dinner_monitor_pass
    refine ⟨⟨fun hf => ?_, fun hs => absurd hs hall⟩, fun hf => ?_,
      fun _ => ⟨by rw [h.2.2.2]; rfl, h.2.1⟩⟩
    · rw [h.1] at hf
      exact absurd hf (by decide)
    · rw [h.1] at hf
      exact absurd hf (by decide)

/-- C6 witness.  A two-actor quota-3 table with both actors satisfied:
the pass sets the flag, prints exactly one notice and stops the monitor. -/
theorem c6_quota_termination_witness :
    ((dinner_monitor_pass tableQuota2 10 false).endFlag = true ↔
      ∀ p ∈ tableQuota2.philos, tableQuota2.must_eat_count ≤ p.meal_count) ∧
    countEndNotice (dinner_monitor_pass tableQuota2 10 false).trace = 1 ∧
    (dinner_monitor_pass tableQuota2 10 false).continue_flag = false := by
  have h := c6_quota_termination tableQuota2 10 (by decide) (by decide)
    (by decide) (by decide)
  refine ⟨h.1, (h.2.1 (h.1.mpr (by decide))).1, (h.2.1 (h.1.mpr (by decide))).2⟩

/-- Accumulator form of the exact digit-string value. -/
theorem digitsVal_eq_valFrom (l : List Char) :
    digitsVal l = l.foldl (fun acc c => acc * 10 + ((c.toNat : Int) - 48)) 0 :=
  rfl

/-- The exact value grows from any non-negative accumulator over digits. -/
theorem valFrom_ge : ∀ (l : List Char) (num : Int),
    (∀ c ∈ l, 48 ≤ c.toNat) → 0 ≤ num →
    num ≤ l.foldl (fun acc c => acc * 10 + ((c.toNat : Int) - 48)) num := by
  intro l
  induction l with
  | nil => intro num _ _; exact le_refl num
  | cons c cs ih =>
    intro num hd hnum
    have hc : 48 ≤ c.toNat := hd c (List.mem_cons_self c cs)
    have hc' : (48 : Int) ≤ (c.toNat : Int) := by exact_mod_cast hc
    have hstep : num ≤ num * 10 + ((c.toNat : Int) - 48) := by nlinarith
    have hrec := ih (num * 10 + ((c.toNat : Int) - 48))
      (fun d hdm => hd d (List.mem_cons_of_mem c hdm)) (by nlinarith)
    exact le_trans hstep hrec

/-- Lemma: `ft_atoi_go` computes the exact value unless it exceeds `INT_MAX`, in
which case it returns `-1`. -/
theorem ft_atoi_go_spec : ∀ (l : List Char) (num : Int),
    (∀ c ∈ l, 48 ≤ c.toNat ∧ c.toNat ≤ 57) →
    0 ≤ num → num ≤ 2147483647 →
    ft_atoi_go num l =
      if 2147483647 <
          l.foldl (fun acc c => acc * 10 + ((c.toNat : Int) - 48)) num then -1
      else l.foldl (fun acc c => acc * 10 + ((c.toNat : Int) - 48)) num := by
  intro l
  induction l with
  | nil =>
    intro num _ _ hmax
    rw [ft_atoi_go, List.foldl_nil, if_neg (not_lt.mpr hmax)]
  | cons c cs ih =>
    intro num hd hnum hmax
    have hc : 48 ≤ c.toNat ∧ c.toNat ≤ 57 := hd c (List.mem_cons_self c cs)
    have hcs : ∀ d ∈ cs, 48 ≤ d.toNat ∧ d.toNat ≤ 57 :=
      fun d hdm => hd d (List.mem_cons_of_mem c hdm)
    have hd0 : (0 : Int) ≤ (c.toNat : Int) - 48 := by
      have := hc.1
      omega
    have hd9 : (c.toNat : Int) - 48 ≤ 9 := by
      have := hc.2
      omega
    rw [ft_atoi_go, List.foldl_cons]
    by_cases hov : ft_check_overflow num c = true
    · have hbig : 2147483647 < num * 10 + ((c.toNat : Int) - 48) := by
        simp only [ft_check_overflow, Bool.or_eq_true, Bool.and_eq_true,
          decide_eq_true_eq, beq_iff_eq] at hov
        rcases hov with h | ⟨h, h2⟩ <;> omega
      have hge := valFrom_ge cs (num * 10 + ((c.toNat : Int) - 48))
        (fun d hdm => (hcs d hdm).1) (by omega)
      rw [if_pos hov, if_pos (lt_of_lt_of_le hbig hge)]
    · have hsmall : num * 10 + ((c.toNat : Int) - 48) ≤ 2147483647 := by
        simp only [ft_check_overflow, Bool.or_eq_true, Bool.and_eq_true,
          decide_eq_true_eq, beq_iff_eq] at hov
        push_neg at hov
        rcases hov with ⟨h1, h2⟩
        by_cases hco : num = 214748364
        · have := h2 hco
          omega
        · omega
      rw [if_neg hov]
      exact ih (num * 10 + ((c.toNat : Int) - 48)) hcs (by omega) hsmall

/-- C7.  For a digit-only argument string, `ft_atoi` returns `-1` exactly
when the denoted value exceeds `INT_MAX = 2^31 - 1` and the exact value
otherwise; `check_value` rejects the `-1` overflow sentinel (for every
argument position) with the overflow error, and a validation error makes
`philo_main` fail before any simulation state (table, actors) is built. -/
theorem c7_atoi_overflow (s : String) (i : Nat) (args : List String)
    (now : Int) (hd : ∀ c ∈ s.data, 48 ≤ c.toNat ∧ c.toNat ≤ 57) :
    (ft_atoi s = -1 ↔ 2147483647 < digitsVal s.data) ∧
    (digitsVal s.data ≤ 2147483647 → ft_atoi s = digitsVal s.data) ∧
    check_value (-1) i = .error .overflow ∧
    (receive_guests args = .error .overflow →
      philo_main args now = .error .overflow) := by
  have hspec := ft_atoi_go_spec s.data 0 hd (le_refl 0) (by omega)
  have hge : 0 ≤ digitsVal s.data := by
    rw [digitsVal_eq_valFrom]
    exact valFrom_ge s.data 0 (fun c hc => (hd c hc).1) (le_refl 0)
  rw [digitsVal_eq_valFrom] at hge ⊢
  refine ⟨⟨fun h => ?_, fun hlt => ?_⟩, fun hle => ?_, ?_, fun h => ?_⟩
  · rcases lt_or_le 2147483647
      (s.data.foldl (fun acc c => acc * 10 + ((c.toNat : Int) - 48)) 0)
      with hlt | hle
    · exact hlt
    · rw [ft_atoi, hspec, if_neg (not_lt.mpr hle)] at h
      omega
  · rw [ft_atoi, hspec, if_pos hlt]
  · rw [ft_atoi, hspec, if_neg (not_lt.mpr hle)]
  · rfl
  · rw [philo_main, h]

/-- C7 witness.  `"2147483648"` (INT_MAX + 1) overflows: `ft_atoi` yields
`-1`, position 2's value check reports overflow, and the `main` pipeline
fails with the overflow error before building any table. -/
theorem c7_atoi_overflow_witness :
    ft_atoi "2147483648" = -1 ∧
    check_value (-1) 2 = .error .overflow ∧
    philo_main ["1", "2147483648", "100", "100"] 0 = .error .overflow := by
  have h := c7_atoi_overflow "2147483648" 2 ["1", "2147483648", "100", "100"]
    0 (by decide)
  exact ⟨h.1.mpr (by decide), h.2.2.1, h.2.2.2 rfl⟩

/-- The recursive rollback destroys exactly fork mutexes `k-1, …, 0` when
called with `count = k - 1`. -/
theorem unset_previous_forks_rules_spec : ∀ (k : Nat),
    unset_previous_forks_rules ((k : Int) - 1)
      = (List.range k).reverse.map SetupEv.destroyFork := by
  intro k
  induction k with
  | zero =>
    rw [unset_previous_forks_rules, if_pos (by omega)]
    simp
  | succ n ih =>
    rw [unset_previous_forks_rules, if_neg (by omega)]
    have h1 : ((n + 1 : Nat) : Int) - 1 - 1 = (n : Int) - 1 := by push_cast; ring
    have h2 : (((n + 1 : Nat) : Int) - 1).toNat = n := by omega
    rw [h1, h2, ih, List.range_succ]
    simp

/-- The initialization loop passes unchanged over indices that do not fail. -/
theorem set_forks_rules_go_reach (n k : Nat) (fail : Nat → Bool) (hk : k < n)
    (hfirst : ∀ j < k, fail j = false) :
    ∀ (d i : Nat), i + d = k →
    set_forks_rules_go n fail i = set_forks_rules_go n fail k := by
  intro d
  induction d with
  | zero => intro i hi; rw [Nat.add_zero] at hi; rw [hi]
  | succ m ih =>
    intro i hi
    have hin : i < n := by omega
    have hfi : fail i = false := hfirst i (by omega)
    rw [set_forks_rules_go, if_pos hin, if_neg (by simp [hfi])]
    exact ih (i + 1) (by omega)

/-- C8.  If initializing the `k`-th fork mutex fails (first failure, any
`k < n`), `set_forks_rules` destroys exactly the previously initialized fork
mutexes `k-1 … 0` and then the three cross-cutting locks, and exits with a
failure status (the `error` outcome): every initialized lock is destroyed,
none is left over. -/
theorem c8_fork_init_rollback (n k : Nat) (fail : Nat → Bool)
    (hk : k < n) (hfirst : ∀ j < k, fail j = false) (hfail : fail k = true) :
    set_forks_rules n fail =
      .error ((List.range k).reverse.map SetupEv.destroyFork
        ++ [SetupEv.destroyPrint, SetupEv.destroyEat, SetupEv.destroyEnd]) := by
  rw [set_forks_rules,
    set_forks_rules_go_reach n k fail hk hfirst k 0 (by omega)]
  rw [set_forks_rules_go, if_pos hk, if_pos hfail,
    unset_previous_forks_rules_spec]

/-- C8 witness.  With three forks and the initialization of fork 2
failing, forks 1 and 0 and the three cross-cutting locks are destroyed. -/
theorem c8_fork_init_rollback_witness :
    set_forks_rules 3 (fun j => j == 2) =
      .error [SetupEv.destroyFork 1, SetupEv.destroyFork 0,
        SetupEv.destroyPrint, SetupEv.destroyEat, SetupEv.destroyEnd] := by
  have h := c8_fork_init_rollback 3 2 (fun j => j == 2) (by omega)
    (by intro j hj; interval_cases j <;> rfl) rfl
  rw [h]
  rfl

/-- C10.  An empty argument string passes the digit-only syntax check
(which only rejects strings containing a non-digit character), is converted
by `ft_atoi` to `0`, and is then rejected by the positional range check at
every argument position 1–5 with a range error (not a syntax or overflow
error), so empty arguments are always refused. -/
theorem c10_empty_arg_range_error (i : Nat) (h1 : 1 ≤ i) (h5 : i ≤ 5) :
    check_syntax "" = .ok () ∧
    ft_atoi "" = 0 ∧
    ∃ e, check_value 0 i = .error e ∧
      (e = ValErr.rangePhilo ∨ e = ValErr.rangeTime ∨ e = ValErr.rangeMeal) := by
  refine ⟨rfl, rfl, ?_⟩
  interval_cases i <;> exact ⟨_, rfl, by decide⟩

/-- C10 witness.  Position 2 (`time_to_die`): the empty string yields 0
and the time range error. -/
theorem c10_empty_arg_range_error_witness :
    check_syntax "" = .ok () ∧
    ft_atoi "" = 0 ∧
    ∃ e, check_value 0 2 = .error e ∧
      (e = ValErr.rangePhilo ∨ e = ValErr.rangeTime ∨ e = ValErr.rangeMeal) :=
  c10_empty_arg_range_error 2 (by decide) (by decide)
